import Mathlib

/-!
Verification of the ReliSage release-notes generator (src/main.py, src/main2.py).

Python strings are modelled as `List Char`; Python dicts of fixed shape become
structures; fallible Python code returns `Except PyErr`; network calls go
through explicit oracle structures (`GithubApi`, `GitlabApi`), and each fetch
function additionally returns the list of HTTP requests it issued, in order.
-/

set_option autoImplicit false

namespace ReliSage

abbrev Str := List Char

/-! ### Python string primitives -/

/-- Python substring prefix test used by the `in` operator model. -/
def isPre : Str → Str → Bool
  | [], _ => true
  | _ :: _, [] => false
  | a :: as, b :: bs => a == b && isPre as bs

/-- Model of the Python expression `pat in s` (substring containment). -/
def pyIn (pat : Str) : Str → Bool
  | [] => isPre pat []
  | c :: rest => isPre pat (c :: rest) || pyIn pat rest

/-- Model of Python `s.count(pat)` for a two-character pattern `[a, b]` with
`a ≠ b` (the patterns used by the source are `"\n+"` and `"\n-"`, whose
occurrences can never overlap, so a sliding count equals the non-overlapping
count computed by Python). -/
def countSub2 (a b : Char) : Str → Nat
  | x :: y :: rest => (if x == a && y == b then 1 else 0) + countSub2 a b (y :: rest)
  | _ => 0

/-- Model of Python `s.strip(c)` for a single-character argument: remove all
leading and trailing occurrences of `c`. -/
def stripChar (c : Char) (s : Str) : Str :=
  ((s.dropWhile (· == c)).reverse.dropWhile (· == c)).reverse

/-- Model of Python `s.split(sep)` for a single-character separator.  The
result is always nonempty, so prepending the current character to its first
group is expressed with `headD` and `tail`. -/
def pySplit (sep : Char) : Str → List Str
  | [] => [[]]
  | c :: rest =>
    let tl := pySplit sep rest
    if c == sep then [] :: tl else (c :: tl.headD []) :: tl.tail

/-- Model of Python `s.endswith(pat)`. -/
def endsWith (pat s : Str) : Bool :=
  isPre pat.reverse s.reverse

/-- Model of Python `s.replace("/", "%2F")`: every slash is replaced and no
other character is touched. -/
def encodeSlash (s : Str) : Str :=
  (s.map (fun c => if c == '/' then "%2F".toList else [c])).flatten

/-- Model of Python `"\n".join(xs)`. -/
def joinNl (xs : List Str) : Str :=
  List.intercalate ['\n'] xs

/-- Search for the first occurrence of `pat` in the string; when found, return
the remainder after the occurrence. -/
def afterMarker (pat : Str) : Str → Option Str
  | [] => if isPre pat [] then some [] else none
  | c :: rest =>
    if isPre pat (c :: rest) then some ((c :: rest).drop pat.length)
    else afterMarker pat rest

/-- Model of Python `urllib.parse.urlparse(url).path` for the URL shapes the
program receives (`scheme://host/path`, optionally with query or fragment):
drop the fragment (after a first occurrence of the hash character) and the
query (after a first occurrence of the question mark); then, when the string
contains `"://"`, drop the scheme and the host segment (up to the next
slash); otherwise the whole remainder is the path. -/
def pyPath (url : Str) : Str :=
  let noQuery := (url.takeWhile (· ≠ '#')).takeWhile (· ≠ '?')
  match afterMarker "://".toList noQuery with
  | some rest => rest.dropWhile (· ≠ '/')
  | none => noQuery

/-! ### Data model -/

inductive Provider
  | github
  | gitlab
deriving DecidableEq, Repr

/-- Normalized per-file change record built by the formatters.  The numeric
fields are Python ints, hence `Int` (the GitLab variant can go negative). -/
structure FileChange where
  filename : Str
  status : Str
  additions : Int
  deletions : Int
  changes : Int
deriving DecidableEq, Repr

/-- A file entry of a GitHub commit-detail or pull-request-files response.
`additions`, `deletions`, `changes` and `patch` are optional keys read with
`dict.get` (or an `in` test for `patch`). -/
structure GithubFileEntry where
  filename : Str
  status : Str
  additions : Option Int
  deletions : Option Int
  changes : Option Int
  patch : Option Str
deriving DecidableEq

/-- A raw GitLab per-file diff entry as returned by the commit-diff and
merge-request-changes endpoints. -/
structure GitlabDiffEntry where
  new_path : Str
  new_file : Bool
  deleted_file : Bool
  renamed_file : Bool
  diff : Str
deriving DecidableEq

/-- Identifier of an outbound GET of src/main2.py (one constructor per
endpoint shape; the GitHub commit detail and commit diff requests share a URL
but differ in the Accept header, so they stay distinct). -/
inductive Request
  | ghCommitList (owner repo branch : Str) (per_page : Int)
  | ghCommitDetail (owner repo sha : Str)
  | ghCommitDiff (owner repo sha : Str)
  | ghPullList (owner repo branch : Str) (per_page : Int)
  | ghPullFiles (owner repo : Str) (number : Int)
  | glCommitList (project branch : Str) (per_page : Int)
  | glCommitDiff (project sha : Str)
  | glMergeRequestList (project branch : Str) (per_page : Int)
  | glMergeRequestChanges (project : Str) (iid : Int)
  | glMergeRequestDiffs (project : Str) (iid : Int)
deriving DecidableEq

/-- Error values raised by the program.  `httpError` models the exception of
`response.raise_for_status()`, carrying the status code and the endpoint. -/
inductive PyErr
  | valueError (msg : Str)
  | indexError
  | httpError (status : Nat) (endpoint : Request)
  | genError
deriving DecidableEq

abbrev Err := PyErr

/-- Result of `parse_repo_url`: owner and repo for GitHub, the URL-encoded
project path for GitLab. -/
inductive RepoInfo
  | github (owner repo : Str)
  | gitlab (project_id : Str)
deriving DecidableEq

/-! ### Pure functions of src/main2.py -/

/-- `identify_provider` of src/main2.py: substring tests on the whole URL
string, GitHub first, `ValueError` otherwise. -/
def identify_provider (repo_url : Str) : Except Err Provider :=
  if pyIn "github.com".toList repo_url then .ok .github
  else if pyIn "gitlab.com".toList repo_url then .ok .gitlab
  else .error (.valueError "Unsupported Git provider".toList)

/-- `parse_repo_url` of src/main2.py.  The GitHub branch indexes `parts[1]`,
which raises `IndexError` when the stripped path splits into fewer than two
segments; the GitLab branch strips one trailing `".git"` and encodes every
slash as `"%2F"`. -/
def parse_repo_url (repo_url : Str) (provider : Provider) :
    Except Err RepoInfo :=
  let path := stripChar '/' (pyPath repo_url)
  match provider with
  | .github =>
    match pySplit '/' path with
    | a :: b :: _ => .ok (.github a b)
    | _ => .error .indexError
  | .gitlab =>
    let project_path := if endsWith ".git".toList path then path.take (path.length - 4) else path
    .ok (.gitlab (encodeSlash project_path))

/-- `format_file_changes` of src/main2.py (GitHub variant): pass-through with
missing numeric keys defaulting to 0. -/
def format_file_changes (files : List GithubFileEntry) : List FileChange :=
  files.map fun f =>
    { filename := f.filename
      status := f.status
      additions := f.additions.getD 0
      deletions := f.deletions.getD 0
      changes := f.changes.getD 0 }

/-- `gitlab_change_type` of src/main2.py. -/
def gitlab_change_type (file_diff : GitlabDiffEntry) : Str :=
  if file_diff.new_file then "added".toList
  else if file_diff.deleted_file then "deleted".toList
  else if file_diff.renamed_file then "renamed".toList
  else "modified".toList

/-- `format_gitlab_file_changes` of src/main2.py: counts of `"\n+"` and
`"\n-"` in the per-file diff text, each minus one; `changes` is the sum of the
raw counts minus two. -/
def format_gitlab_file_changes (changes : List GitlabDiffEntry) : List FileChange :=
  changes.map fun f =>
    { filename := f.new_path
      status := gitlab_change_type f
      additions := (countSub2 '\n' '+' f.diff : Int) - 1
      deletions := (countSub2 '\n' '-' f.diff : Int) - 1
      changes := ((countSub2 '\n' '+' f.diff : Int) + (countSub2 '\n' '-' f.diff : Int)) - 2 }

/-! ### HTTP layer

Each outbound GET of src/main2.py is identified by a `Request` value.  An API
oracle (one structure per provider) maps each request shape to a status code
and a parsed body; the fetch functions return the list of requests they
issued, in order, next to their result. -/

/-- An entry of the GitHub commit-list response. -/
structure GhCommitSummary where
  sha : Str
deriving DecidableEq

/-- The parts of a GitHub commit-detail response that src/main2.py reads. -/
structure GhCommitDetail where
  message : Str
  author_name : Str
  author_date : Str
  files : List GithubFileEntry
deriving DecidableEq

/-- An entry of the GitHub pull-request list response. -/
structure GhPullSummary where
  number : Int
  title : Str
  user_login : Str
  merged_at : Option Str
deriving DecidableEq

/-- An entry of the GitLab commit-list response. -/
structure GlCommitSummary where
  id : Str
  message : Str
  author_name : Str
  committed_date : Str
deriving DecidableEq

/-- An entry of the GitLab merge-request list response. -/
structure GlMrSummary where
  iid : Int
  title : Str
  author_username : Str
  merged_at : Option Str
deriving DecidableEq

/-- An entry of the GitLab merge-request diffs response. -/
structure GlDiffItem where
  diff : Str
deriving DecidableEq

/-- Oracle for the GitHub REST endpoints used by src/main2.py.  Each field
returns the HTTP status code and the parsed body of the response. -/
structure GithubApi where
  commitList : Str → Str → Str → Int → Nat × List GhCommitSummary
  commitDetail : Str → Str → Str → Nat × GhCommitDetail
  commitDiff : Str → Str → Str → Nat × Str
  pullList : Str → Str → Str → Int → Nat × List GhPullSummary
  pullFiles : Str → Str → Int → Nat × List GithubFileEntry

/-- Oracle for the GitLab REST endpoints used by src/main2.py. -/
structure GitlabApi where
  commitList : Str → Str → Int → Nat × List GlCommitSummary
  commitDiff : Str → Str → Nat × List GitlabDiffEntry
  mergeRequestList : Str → Str → Int → Nat × List GlMrSummary
  mergeRequestChanges : Str → Int → Nat × List GitlabDiffEntry
  mergeRequestDiffs : Str → Int → Nat × List GlDiffItem

/-- The status code the oracles assign to a request. -/
def request_status (gh : GithubApi) (gl : GitlabApi) : Request → Nat
  | .ghCommitList owner repo branch n => (gh.commitList owner repo branch n).1
  | .ghCommitDetail owner repo sha => (gh.commitDetail owner repo sha).1
  | .ghCommitDiff owner repo sha => (gh.commitDiff owner repo sha).1
  | .ghPullList owner repo branch n => (gh.pullList owner repo branch n).1
  | .ghPullFiles owner repo n => (gh.pullFiles owner repo n).1
  | .glCommitList project branch n => (gl.commitList project branch n).1
  | .glCommitDiff project sha => (gl.commitDiff project sha).1
  | .glMergeRequestList project branch n => (gl.mergeRequestList project branch n).1
  | .glMergeRequestChanges project iid => (gl.mergeRequestChanges project iid).1
  | .glMergeRequestDiffs project iid => (gl.mergeRequestDiffs project iid).1

def is2xx (status : Nat) : Bool :=
  200 ≤ status && status < 300

/-- Modelled from the spec: the HTTP client adapter (the external `requests`
library, not under src/) is specified to abort on "any non-2xx HTTP response
... with an HttpRequestError carrying the status code and endpoint". -/
def raise_for_status (status : Nat) (endpoint : Request) : Except Err Unit :=
  if is2xx status then .ok () else .error (.httpError status endpoint)

/-- Normalized commit record assembled by the commit fetchers. -/
structure Commit where
  sha : Str
  message : Str
  author : Str
  date : Str
  files : List FileChange
  diff : Str
deriving DecidableEq

/-- Normalized merge/pull-request record assembled by the fetchers. -/
structure MergeRequest where
  id : Int
  title : Str
  author : Str
  merged_at : Option Str
  files : List FileChange
  diff : Str
deriving DecidableEq

/-- The enrichment loop shared by the four fetchers: process each response
entry in order; the first error aborts the loop, discarding the accumulated
records (an exception propagates out of the Python `for` loop). -/
def fetch_each {α β : Type} (step : α → List Request × Except Err β) :
    List α → List Request × Except Err (List β)
  | [] => ([], .ok [])
  | x :: xs =>
    match step x with
    | (tr, .error e) => (tr, .error e)
    | (tr, .ok y) =>
      match fetch_each step xs with
      | (tr2, .error e) => (tr ++ tr2, .error e)
      | (tr2, .ok ys) => (tr ++ tr2, .ok (y :: ys))

/-- Enrichment of one GitHub commit summary: the detail request
(`get_github_commit_details`), then the diff request
(`get_github_commit_diff`, same URL with the diff Accept header). -/
def gh_commit_record (api : GithubApi) (owner repo : Str) (c : GhCommitSummary) :
    List Request × Except Err Commit :=
  let reqD := Request.ghCommitDetail owner repo c.sha
  let (stD, details) := api.commitDetail owner repo c.sha
  match raise_for_status stD reqD with
  | .error e => ([reqD], .error e)
  | .ok _ =>
    let reqF := Request.ghCommitDiff owner repo c.sha
    let (stF, diffText) := api.commitDiff owner repo c.sha
    match raise_for_status stF reqF with
    | .error e => ([reqD, reqF], .error e)
    | .ok _ =>
      ([reqD, reqF], .ok
        { sha := c.sha
          message := details.message
          author := details.author_name
          date := details.author_date
          files := format_file_changes details.files
          diff := diffText })

/-- `get_github_commits` of src/main2.py. -/
def get_github_commits (api : GithubApi) (owner repo branch : Str) (max_commits : Int) :
    List Request × Except Err (List Commit) :=
  let req := Request.ghCommitList owner repo branch max_commits
  let (st, body) := api.commitList owner repo branch max_commits
  match raise_for_status st req with
  | .error e => ([req], .error e)
  | .ok _ =>
    match fetch_each (gh_commit_record api owner repo) body with
    | (tr, res) => (req :: tr, res)

/-- Enrichment of one GitHub pull-request summary: `get_github_pr_details`
hits the files endpoint, and `get_github_pr_diff` hits the same files
endpoint a second time, joining the patches of the entries that have one. -/
def gh_pr_record (api : GithubApi) (owner repo : Str) (pr : GhPullSummary) :
    List Request × Except Err MergeRequest :=
  let reqF := Request.ghPullFiles owner repo pr.number
  let (st1, files1) := api.pullFiles owner repo pr.number
  match raise_for_status st1 reqF with
  | .error e => ([reqF], .error e)
  | .ok _ =>
    let (st2, files2) := api.pullFiles owner repo pr.number
    match raise_for_status st2 reqF with
    | .error e => ([reqF, reqF], .error e)
    | .ok _ =>
      ([reqF, reqF], .ok
        { id := pr.number
          title := pr.title
          author := pr.user_login
          merged_at := pr.merged_at
          files := format_file_changes files1
          diff := joinNl (files2.filterMap (·.patch)) })

/-- `get_github_pull_requests` of src/main2.py. -/
def get_github_pull_requests (api : GithubApi) (owner repo branch : Str) (max_requests : Int) :
    List Request × Except Err (List MergeRequest) :=
  let req := Request.ghPullList owner repo branch max_requests
  let (st, body) := api.pullList owner repo branch max_requests
  match raise_for_status st req with
  | .error e => ([req], .error e)
  | .ok _ =>
    match fetch_each (gh_pr_record api owner repo) body with
    | (tr, res) => (req :: tr, res)

/-- Enrichment of one GitLab commit summary: `get_gitlab_commit_details` and
`get_gitlab_commit_diff` both hit the commit-diff endpoint (two separate
requests to the same URL). -/
def gl_commit_record (api : GitlabApi) (project : Str) (c : GlCommitSummary) :
    List Request × Except Err Commit :=
  let reqD := Request.glCommitDiff project c.id
  let (st1, entries) := api.commitDiff project c.id
  match raise_for_status st1 reqD with
  | .error e => ([reqD], .error e)
  | .ok _ =>
    let (st2, entries2) := api.commitDiff project c.id
    match raise_for_status st2 reqD with
    | .error e => ([reqD, reqD], .error e)
    | .ok _ =>
      ([reqD, reqD], .ok
        { sha := c.id
          message := c.message
          author := c.author_name
          date := c.committed_date
          files := format_gitlab_file_changes entries
          diff := joinNl (entries2.map (·.diff)) })

/-- `get_gitlab_commits` of src/main2.py. -/
def get_gitlab_commits (api : GitlabApi) (project branch : Str) (max_commits : Int) :
    List Request × Except Err (List Commit) :=
  let req := Request.glCommitList project branch max_commits
  let (st, body) := api.commitList project branch max_commits
  match raise_for_status st req with
  | .error e => ([req], .error e)
  | .ok _ =>
    match fetch_each (gl_commit_record api project) body with
    | (tr, res) => (req :: tr, res)

/-- Enrichment of one GitLab merge-request summary: `get_gitlab_mr_details`
hits the changes endpoint, `get_gitlab_mr_diff` the diffs endpoint. -/
def gl_mr_record (api : GitlabApi) (project : Str) (mr : GlMrSummary) :
    List Request × Except Err MergeRequest :=
  let reqC := Request.glMergeRequestChanges project mr.iid
  let (st1, details) := api.mergeRequestChanges project mr.iid
  match raise_for_status st1 reqC with
  | .error e => ([reqC], .error e)
  | .ok _ =>
    let reqDf := Request.glMergeRequestDiffs project mr.iid
    let (st2, diffs) := api.mergeRequestDiffs project mr.iid
    match raise_for_status st2 reqDf with
    | .error e => ([reqC, reqDf], .error e)
    | .ok _ =>
      ([reqC, reqDf], .ok
        { id := mr.iid
          title := mr.title
          author := mr.author_username
          merged_at := mr.merged_at
          files := format_gitlab_file_changes details
          diff := joinNl (diffs.map (·.diff)) })

/-- `get_gitlab_merge_requests` of src/main2.py. -/
def get_gitlab_merge_requests (api : GitlabApi) (project branch : Str) (max_requests : Int) :
    List Request × Except Err (List MergeRequest) :=
  let req := Request.glMergeRequestList project branch max_requests
  let (st, body) := api.mergeRequestList project branch max_requests
  match raise_for_status st req with
  | .error e => ([req], .error e)
  | .ok _ =>
    match fetch_each (gl_mr_record api project) body with
    | (tr, res) => (req :: tr, res)

/-! ### Entry point of src/main2.py -/

/-- Model of Python `int(s)` restricted to optional surrounding spaces, an
optional sign and decimal digits (the subset relevant to the environment
values the program reads); anything else raises `ValueError`. -/
def pyIntDigits : Int → Str → Except Err Int
  | acc, [] => .ok acc
  | acc, c :: rest =>
    if '0' ≤ c ∧ c ≤ '9' then
      pyIntDigits (acc * 10 + ((c.toNat : Int) - ('0'.toNat : Int))) rest
    else .error (.valueError "invalid literal for int".toList)

def pyInt (s : Str) : Except Err Int :=
  let t := ((s.dropWhile (· == ' ')).reverse.dropWhile (· == ' ')).reverse
  match t with
  | '-' :: d :: ds => do
    let v ← pyIntDigits 0 (d :: ds)
    .ok (-v)
  | '+' :: d :: ds => pyIntDigits 0 (d :: ds)
  | d :: ds => pyIntDigits 0 (d :: ds)
  | [] => .error (.valueError "invalid literal for int".toList)

/-- Python truthiness of `os.getenv` results: `None` and the empty string are
falsy. -/
def is_falsy (o : Option Str) : Bool :=
  match o with
  | none => true
  | some s => s.isEmpty

/-- The body of the `__main__` block of src/main2.py, over an environment
oracle, the two API oracles, a release-note generation oracle and an initial
file system (name-to-content map).  Returns the final file system when the
run succeeds; the only write the program performs is `release_notes.md` at
the very end of a fully successful run. -/
def main_run (env : Str → Option Str) (gh : GithubApi) (gl : GitlabApi)
    (gen : List Commit → List MergeRequest → Except Err Str)
    (fs : Str → Option Str) : Except Err (Str → Option Str) := do
    let repo_url_env := env "REPO_URL".toList
    let branch_env := env "BRANCH_NAME".toList
    let max_commits ←
      match env "MAX_COMMITS".toList with
      | none => Except.ok 5
      | some s => pyInt s
    let max_mrs ←
      match env "MAX_MERGE_REQUESTS".toList with
      | none => Except.ok 5
      | some s => pyInt s
    if is_falsy repo_url_env || is_falsy branch_env then
      Except.error (.valueError
        "Missing required environment variables: REPO_URL, BRANCH_NAME".toList)
    else do
      let repo_url := repo_url_env.getD []
      let branch := branch_env.getD []
      let provider ← identify_provider repo_url
      let repo_info ← parse_repo_url repo_url provider
      let pair ←
        match provider, repo_info with
        | .github, .github owner repo => do
          let commits ← (get_github_commits gh owner repo branch max_commits).2
          let mrs ← (get_github_pull_requests gh owner repo branch max_mrs).2
          Except.ok (commits, mrs)
        | .gitlab, .gitlab project_id => do
          let commits ← (get_gitlab_commits gl project_id branch max_commits).2
          let mrs ← (get_gitlab_merge_requests gl project_id branch max_mrs).2
          Except.ok (commits, mrs)
        | _, _ =>
          -- unreachable: parse_repo_url returns the variant of its provider
          Except.error .indexError
      let notes ← gen pair.1 pair.2
      Except.ok (fun k => if k = "release_notes.md".toList then some notes else fs k)

/-- The `__main__` block of src/main2.py: an uncaught exception terminates the
process with an error and leaves the file system untouched. -/
def main_block (env : Str → Option Str) (gh : GithubApi) (gl : GitlabApi)
    (gen : List Commit → List MergeRequest → Except Err Str)
    (fs : Str → Option Str) : Except Err Unit × (Str → Option Str) :=
  match main_run env gh gl gen fs with
  | .ok fs2 => (.ok (), fs2)
  | .error e => (.error e, fs)

/-! ### Spec-side notions and derived builders used in the theorems -/

/-- Does a line start with the character `c`? -/
def startsWithChar (c : Char) (l : Str) : Bool :=
  decide (l.head? = some c)

/-- The number of occurrences of the two-character substring `[a, b]`, stated
independently of `countSub2` as the number of adjacent positions holding `a`
and then `b`. -/
def occurrences2 (a b : Char) (s : Str) : Nat :=
  (s.zip s.tail).countP (fun p => p.1 == a && p.2 == b)

/-- Join a list of strings with a separator. -/
def joinWith (sep : Str) : List Str → Str
  | [] => []
  | [x] => x
  | x :: y :: ys => x ++ sep ++ joinWith sep (y :: ys)

/-- The host segment of a URL as the spec describes it: the part between
`"://"` and the next slash.  Used to state the claim about provider
detection by host. -/
def hostSegment (url : Str) : Str :=
  ((afterMarker "://".toList url).getD []).takeWhile (· ≠ '/')

/-- The commit record `get_github_commits` assembles for one summary entry
when every request of the enrichment succeeds. -/
def gh_commit_of (gh : GithubApi) (owner repo : Str) (c : GhCommitSummary) : Commit :=
  { sha := c.sha
    message := (gh.commitDetail owner repo c.sha).2.message
    author := (gh.commitDetail owner repo c.sha).2.author_name
    date := (gh.commitDetail owner repo c.sha).2.author_date
    files := format_file_changes (gh.commitDetail owner repo c.sha).2.files
    diff := (gh.commitDiff owner repo c.sha).2 }

/-- The merge-request record `get_gitlab_merge_requests` assembles for one
summary entry when every request of the enrichment succeeds. -/
def gl_mr_of (gl : GitlabApi) (project : Str) (mr : GlMrSummary) : MergeRequest :=
  { id := mr.iid
    title := mr.title
    author := mr.author_username
    merged_at := mr.merged_at
    files := format_gitlab_file_changes (gl.mergeRequestChanges project mr.iid).2
    diff := joinNl (((gl.mergeRequestDiffs project mr.iid).2).map (·.diff)) }

/-! ### Concrete inputs for witnesses and counterexamples -/

/-- A canonical GitLab diff entry whose text is a unified diff that starts
with the `"---"` header line. -/
def c1cexEntry : GitlabDiffEntry :=
  { new_path := "f.txt".toList
    new_file := false
    deleted_file := false
    renamed_file := false
    diff := "--- a/f.txt\n+++ b/f.txt\n+x\n+y\n-z".toList }

/-- A GitLab diff entry whose text starts with a hunk header, with three
lines starting with a plus and two lines starting with a minus. -/
def c1witEntry : GitlabDiffEntry :=
  { new_path := "g.txt".toList
    new_file := false
    deleted_file := false
    renamed_file := false
    diff := "@@ -1,2 +1,3 @@\n+a\n-b\n+c\n-d\n+e".toList }

/-- A GitLab diff entry with empty diff text. -/
def c2cexEntry : GitlabDiffEntry :=
  { new_path := "a".toList
    new_file := false
    deleted_file := false
    renamed_file := false
    diff := [] }

/-- A GitHub file entry with non-negative counters. -/
def c2witFile : GithubFileEntry :=
  { filename := "a.go".toList
    status := "modified".toList
    additions := some 3
    deletions := some 1
    changes := some 4
    patch := none }

/-- A GitLab diff entry whose text contains at least one `"\n+"` and one
`"\n-"` occurrence. -/
def c2witEntry : GitlabDiffEntry :=
  { new_path := "b".toList
    new_file := false
    deleted_file := false
    renamed_file := false
    diff := "--- a/b\n+++ b/b\n+x\n-y".toList }

/-- A URL whose host segment is `gitlab.com` but whose path contains the
substring `github.com`. -/
def c3cexUrl : Str := "https://gitlab.com/mirrors/github.com".toList

/-- A GitHub oracle whose commit-list endpoint answers 404. -/
def gh404 : GithubApi :=
  { commitList := fun _ _ _ _ => (404, [])
    commitDetail := fun _ _ _ => (200, { message := [], author_name := [], author_date := [], files := [] })
    commitDiff := fun _ _ _ => (200, [])
    pullList := fun _ _ _ _ => (200, [])
    pullFiles := fun _ _ _ => (200, []) }

/-- A GitHub oracle answering 200 everywhere with empty bodies. -/
def gh200 : GithubApi :=
  { commitList := fun _ _ _ _ => (200, [])
    commitDetail := fun _ _ _ => (200, { message := [], author_name := [], author_date := [], files := [] })
    commitDiff := fun _ _ _ => (200, [])
    pullList := fun _ _ _ _ => (200, [])
    pullFiles := fun _ _ _ => (200, []) }

/-- A GitLab oracle whose commit-list endpoint answers 404. -/
def gl404 : GitlabApi :=
  { commitList := fun _ _ _ => (404, [])
    commitDiff := fun _ _ => (200, [])
    mergeRequestList := fun _ _ _ => (200, [])
    mergeRequestChanges := fun _ _ => (200, [])
    mergeRequestDiffs := fun _ _ => (200, []) }

/-- A GitLab oracle answering 200 everywhere with empty bodies. -/
def gl200 : GitlabApi :=
  { commitList := fun _ _ _ => (200, [])
    commitDiff := fun _ _ => (200, [])
    mergeRequestList := fun _ _ _ => (200, [])
    mergeRequestChanges := fun _ _ => (200, [])
    mergeRequestDiffs := fun _ _ => (200, []) }

/-- A GitHub oracle whose commit-list endpoint returns two summaries no
matter which `per_page` value was requested. -/
def ghOver : GithubApi :=
  { commitList := fun _ _ _ _ => (200, [{ sha := "s1".toList }, { sha := "s2".toList }])
    commitDetail := fun _ _ _ => (200, { message := [], author_name := [], author_date := [], files := [] })
    commitDiff := fun _ _ _ => (200, [])
    pullList := fun _ _ _ _ => (200, [])
    pullFiles := fun _ _ _ => (200, []) }

/-- An environment with no variables set. -/
def envEmpty : Str → Option Str := fun _ => none

/-- A generation oracle that always succeeds. -/
def gen0 : List Commit → List MergeRequest → Except Err Str := fun _ _ => .ok "notes".toList

/-- A file system holding a release-notes file from a previous run. -/
def fsOld : Str → Option Str :=
  fun k => if k = "release_notes.md".toList then some "old notes".toList else none

/-! ### Helper lemmas about the string primitives -/

theorem pySplit_cons (sep c : Char) (rest : Str) :
    pySplit sep (c :: rest) = if c = sep then [] :: pySplit sep rest
      else (c :: (pySplit sep rest).headD []) :: (pySplit sep rest).tail := by
  simp [pySplit]

theorem pySplit_ne_nil (sep : Char) : ∀ s : Str, pySplit sep s ≠ []
  | [] => by simp [pySplit]
  | c :: rest => by
    rw [pySplit_cons]
    by_cases h : c = sep
    · simp [h]
    · simp [h]

theorem pySplit_cons_of_ne (sep c : Char) (rest : Str) (hc : ¬ c = sep)
    (l : Str) (ls : List Str) (hls : pySplit sep rest = l :: ls) :
    pySplit sep (c :: rest) = (c :: l) :: ls := by
  rw [pySplit_cons, hls]
  simp [hc]

theorem pySplit_head_head? (sep : Char) :
    ∀ (s : Str) (l : Str) (ls : List Str), pySplit sep s = l :: ls →
      l.head? = (if s.head? = some sep then none else s.head?) := by
  intro s l ls h
  cases s with
  | nil =>
    simp [pySplit] at h
    rcases h with ⟨h1, h2⟩
    subst h1
    simp
  | cons c rest =>
    rw [pySplit_cons] at h
    by_cases hc : c = sep
    · simp [hc] at h
      simp [← h.1, hc]
    · obtain ⟨m, ms, hms⟩ := List.exists_cons_of_ne_nil (pySplit_ne_nil sep rest)
      rw [hms] at h
      simp [hc] at h
      simp [← h.1, hc]

theorem countP_lines (sep c : Char) (hc : c ≠ sep) :
    ∀ s : Str, (pySplit sep s).countP (startsWithChar c)
      = (if s.head? = some c then 1 else 0) + countSub2 sep c s
  | [] => by simp [pySplit, countSub2, startsWithChar]
  | [a] => by
    by_cases ha : a = sep
    · rw [pySplit_cons]
      simp [ha, pySplit, startsWithChar, countSub2, Ne.symm hc]
    · rw [pySplit_cons]
      simp [ha, pySplit, startsWithChar, countSub2, List.countP_cons]
  | a :: b :: r2 => by
    have ih := countP_lines sep c hc (b :: r2)
    by_cases ha : a = sep
    · have h1 : pySplit sep (a :: b :: r2) = [] :: pySplit sep (b :: r2) := by
        rw [pySplit_cons]; simp [ha]
      rw [h1, List.countP_cons, ih]
      have h2 : countSub2 sep c (a :: b :: r2)
          = (if b = c then 1 else 0) + countSub2 sep c (b :: r2) := by
        simp [countSub2, ha]
      rw [h2]
      simp [startsWithChar, ha, Ne.symm hc]
    · obtain ⟨l, ls, hls⟩ := List.exists_cons_of_ne_nil (pySplit_ne_nil sep (b :: r2))
      have h1 := pySplit_cons_of_ne sep a (b :: r2) ha l ls hls
      have hl := pySplit_head_head? sep (b :: r2) l ls hls
      rw [hls, List.countP_cons] at ih
      rw [h1, List.countP_cons]
      have h2 : countSub2 sep c (a :: b :: r2) = countSub2 sep c (b :: r2) := by
        simp [countSub2, ha]
      rw [h2]
      have hlb : (startsWithChar c l = true) ↔ (b = c) := by
        by_cases hb : b = sep
        · rw [hb] at hl
          simp at hl
          constructor
          · intro hx
            simp [startsWithChar, hl] at hx
          · intro hx
            exact absurd (hx.symm.trans hb) hc
        · simp [hb] at hl
          simp [startsWithChar, hl]
      have hcancel : List.countP (startsWithChar c) ls = countSub2 sep c (b :: r2) := by
        by_cases hb : b = c
        · have e1 : (if startsWithChar c l = true then 1 else 0) = 1 := by
            simp [hlb.mpr hb]
          have e2 : ((b :: r2).head? = some c) := by simp [hb]
          rw [e1, if_pos e2] at ih
          omega
        · have e0 : ¬ (startsWithChar c l = true) := fun hx => hb (hlb.mp hx)
          have e2 : ¬ ((b :: r2).head? = some c) := by simp [hb]
          rw [if_neg e0, if_neg e2] at ih
          omega
      rw [hcancel]
      simp [startsWithChar]
      omega

theorem countSub2_eq_occurrences2 (a b : Char) :
    ∀ s : Str, countSub2 a b s = occurrences2 a b s
  | [] => by simp [countSub2, occurrences2]
  | [x] => by simp [countSub2, occurrences2]
  | x :: y :: r => by
    have ih := countSub2_eq_occurrences2 a b (y :: r)
    have h1 : countSub2 a b (x :: y :: r)
        = (if x == a && y == b then 1 else 0) + countSub2 a b (y :: r) := by
      simp [countSub2]
    have h2 : occurrences2 a b (x :: y :: r)
        = (if x == a && y == b then 1 else 0) + occurrences2 a b (y :: r) := by
      simp only [occurrences2, List.tail_cons, List.zip_cons_cons, List.countP_cons]
      omega
    rw [h1, h2, ih]

theorem encodeSlash_eq_joinWith : ∀ s : Str,
    encodeSlash s = joinWith "%2F".toList (pySplit '/' s)
  | [] => by simp [encodeSlash, pySplit, joinWith]
  | c :: rest => by
    have ih := encodeSlash_eq_joinWith rest
    obtain ⟨l, ls, hls⟩ := List.exists_cons_of_ne_nil (pySplit_ne_nil '/' rest)
    have henc : encodeSlash (c :: rest)
        = (if c = '/' then "%2F".toList else [c]) ++ encodeSlash rest := by
      simp [encodeSlash]
    by_cases hc : c = '/'
    · have h1 : pySplit '/' (c :: rest) = [] :: l :: ls := by
        rw [pySplit_cons]; simp [hc, hls]
      rw [henc, h1]
      have h2 : joinWith "%2F".toList ([] :: l :: ls)
          = "%2F".toList ++ joinWith "%2F".toList (l :: ls) := by
        simp [joinWith]
      rw [h2, ← hls, ← ih]
      simp [hc]
    · have h1 := pySplit_cons_of_ne '/' c rest hc l ls hls
      rw [henc, h1]
      rw [hls] at ih
      cases ls with
      | nil =>
        simp only [joinWith] at ih ⊢
        simp [hc, ih]
      | cons m ms =>
        have h2 : joinWith "%2F".toList ((c :: l) :: m :: ms)
            = (c :: l) ++ ("%2F".toList ++ joinWith "%2F".toList (m :: ms)) := by
          simp [joinWith]
        have h3 : joinWith "%2F".toList (l :: m :: ms)
            = l ++ ("%2F".toList ++ joinWith "%2F".toList (m :: ms)) := by
          simp [joinWith]
        rw [h2]
        rw [h3] at ih
        simp [hc, ih]

/-! ### Helper lemmas about the fetch loop -/

theorem fetch_each_ok_map {α β : Type} (step : α → List Request × Except Err β)
    (f : α → β) (tf : α → List Request) :
    ∀ xs : List α, (∀ x ∈ xs, step x = (tf x, .ok (f x))) →
      fetch_each step xs = ((xs.map tf).flatten, .ok (xs.map f))
  | [] => by intro _; simp [fetch_each]
  | x :: xs => by
    intro h
    have hx := h x (by simp)
    have ih := fetch_each_ok_map step f tf xs (fun y hy => h y (by simp [hy]))
    simp only [fetch_each, hx, ih, List.map_cons, List.flatten_cons]

theorem fetch_each_ok_trace {α β : Type} (step : α → List Request × Except Err β)
    (P : Request → Prop)
    (hstep : ∀ x tr y, step x = (tr, .ok y) → ∀ r ∈ tr, P r) :
    ∀ (xs : List α) (ys : List β), (fetch_each step xs).2 = .ok ys →
      ∀ r ∈ (fetch_each step xs).1, P r
  | [], ys => by
    intro _ r hr
    simp [fetch_each] at hr
  | x :: xs, ys => by
    intro hok r hr
    rcases hsx : step x with ⟨tr, res⟩
    cases res with
    | error e =>
      simp only [fetch_each, hsx] at hok
      exact absurd hok (by simp)
    | ok y =>
      rcases hrec : fetch_each step xs with ⟨tr2, res2⟩
      cases res2 with
      | error e =>
        simp only [fetch_each, hsx, hrec] at hok
        exact absurd hok (by simp)
      | ok ys2 =>
        simp only [fetch_each, hsx, hrec] at hr
        rcases List.mem_append.mp hr with hmem | hmem
        · exact hstep x tr y hsx r hmem
        · have := fetch_each_ok_trace step P hstep xs ys2
          rw [hrec] at this
          exact this rfl r hmem

theorem fetch_each_ok_forall₂ {α β : Type} (step : α → List Request × Except Err β) :
    ∀ (xs : List α) (ys : List β), (fetch_each step xs).2 = .ok ys →
      List.Forall₂ (fun x y => (step x).2 = .ok y) xs ys
  | [], ys => by
    intro h
    simp [fetch_each] at h
    simp [← h]
  | x :: xs, ys => by
    intro h
    rcases hsx : step x with ⟨tr, res⟩
    cases res with
    | error e =>
      simp only [fetch_each, hsx] at h
      exact absurd h (by simp)
    | ok y =>
      rcases hrec : fetch_each step xs with ⟨tr2, res2⟩
      cases res2 with
      | error e =>
        simp only [fetch_each, hsx, hrec] at h
        exact absurd h (by simp)
      | ok ys2 =>
        simp only [fetch_each, hsx, hrec] at h
        have ih := fetch_each_ok_forall₂ step xs ys2
        rw [hrec] at ih
        injection h with hys
        rw [← hys]
        exact List.Forall₂.cons (by simp [hsx]) (ih rfl)

theorem fetch_each_error_shape {α β : Type} (step : α → List Request × Except Err β)
    (P : Err → Prop)
    (hstep : ∀ x tr e, step x = (tr, .error e) → P e) :
    ∀ (xs : List α) (e : Err), (fetch_each step xs).2 = .error e → P e
  | [], e => by
    intro h
    simp [fetch_each] at h
  | x :: xs, e => by
    intro h
    rcases hsx : step x with ⟨tr, res⟩
    cases res with
    | error e2 =>
      simp only [fetch_each, hsx] at h
      injection h with he
      exact he ▸ hstep x tr e2 hsx
    | ok y =>
      rcases hrec : fetch_each step xs with ⟨tr2, res2⟩
      cases res2 with
      | error e2 =>
        simp only [fetch_each, hsx, hrec] at h
        have ih := fetch_each_error_shape step P hstep xs e2
        rw [hrec] at ih
        injection h with he
        exact he ▸ ih rfl
      | ok ys2 =>
        simp only [fetch_each, hsx, hrec] at h
        exact absurd h (by simp)

/-! ### Per-record lemmas about the enrichment steps -/

theorem gh_commit_record_ok (gh : GithubApi) (owner repo : Str) (c : GhCommitSummary)
    (h1 : is2xx (gh.commitDetail owner repo c.sha).1 = true)
    (h2 : is2xx (gh.commitDiff owner repo c.sha).1 = true) :
    gh_commit_record gh owner repo c =
      ([.ghCommitDetail owner repo c.sha, .ghCommitDiff owner repo c.sha],
       .ok (gh_commit_of gh owner repo c)) := by
  rcases hD : gh.commitDetail owner repo c.sha with ⟨stD, details⟩
  rcases hF : gh.commitDiff owner repo c.sha with ⟨stF, diffText⟩
  rw [hD] at h1
  rw [hF] at h2
  simp only at h1 h2
  simp [gh_commit_record, gh_commit_of, raise_for_status, hD, hF, h1, h2]

theorem gl_mr_record_ok (gl : GitlabApi) (project : Str) (mr : GlMrSummary)
    (h1 : is2xx (gl.mergeRequestChanges project mr.iid).1 = true)
    (h2 : is2xx (gl.mergeRequestDiffs project mr.iid).1 = true) :
    gl_mr_record gl project mr =
      ([.glMergeRequestChanges project mr.iid, .glMergeRequestDiffs project mr.iid],
       .ok (gl_mr_of gl project mr)) := by
  rcases hC : gl.mergeRequestChanges project mr.iid with ⟨st1, details⟩
  rcases hF : gl.mergeRequestDiffs project mr.iid with ⟨st2, diffs⟩
  rw [hC] at h1
  rw [hF] at h2
  simp only at h1 h2
  simp [gl_mr_record, gl_mr_of, raise_for_status, hC, hF, h1, h2]

theorem gh_commit_record_trace_2xx (gh : GithubApi) (gl : GitlabApi) (owner repo : Str) :
    ∀ (c : GhCommitSummary) (tr : List Request) (y : Commit),
      gh_commit_record gh owner repo c = (tr, .ok y) →
      ∀ r ∈ tr, is2xx (request_status gh gl r) = true := by
  intro c tr y h r hr
  rcases hD : gh.commitDetail owner repo c.sha with ⟨stD, details⟩
  rcases hF : gh.commitDiff owner repo c.sha with ⟨stF, diffText⟩
  by_cases h1 : is2xx stD = true
  · by_cases h2 : is2xx stF = true
    · simp only [gh_commit_record, hD, hF, raise_for_status, h1, h2, if_true] at h
      have htr : tr = [.ghCommitDetail owner repo c.sha, .ghCommitDiff owner repo c.sha] := by
        simpa using congrArg Prod.fst h.symm
      subst htr
      simp only [List.mem_cons, List.not_mem_nil, or_false] at hr
      rcases hr with rfl | rfl
      · simp [request_status, hD, h1]
      · simp [request_status, hF, h2]
    · simp only [gh_commit_record, hD, hF, raise_for_status, h1, h2, if_true, if_false] at h
      exact absurd (congrArg Prod.snd h) (by simp)
  · simp only [gh_commit_record, hD, raise_for_status, h1, if_false] at h
    exact absurd (congrArg Prod.snd h) (by simp)

theorem gl_commit_record_trace_2xx (gh : GithubApi) (gl : GitlabApi) (project : Str) :
    ∀ (c : GlCommitSummary) (tr : List Request) (y : Commit),
      gl_commit_record gl project c = (tr, .ok y) →
      ∀ r ∈ tr, is2xx (request_status gh gl r) = true := by
  intro c tr y h r hr
  rcases hD : gl.commitDiff project c.id with ⟨st1, entries⟩
  by_cases h1 : is2xx st1 = true
  · simp only [gl_commit_record, hD, raise_for_status, h1, if_true] at h
    have htr : tr = [.glCommitDiff project c.id, .glCommitDiff project c.id] := by
      simpa using congrArg Prod.fst h.symm
    subst htr
    simp only [List.mem_cons, List.not_mem_nil, or_false] at hr
    rcases hr with rfl | rfl
    · simp [request_status, hD, h1]
    · simp [request_status, hD, h1]
  · simp only [gl_commit_record, hD, raise_for_status, h1, if_false] at h
    exact absurd (congrArg Prod.snd h) (by simp)

theorem gh_commit_record_error_http (gh : GithubApi) (owner repo : Str) :
    ∀ (c : GhCommitSummary) (tr : List Request) (e : Err),
      gh_commit_record gh owner repo c = (tr, .error e) →
      ∃ st ep, e = .httpError st ep := by
  intro c tr e h
  rcases hD : gh.commitDetail owner repo c.sha with ⟨stD, details⟩
  rcases hF : gh.commitDiff owner repo c.sha with ⟨stF, diffText⟩
  by_cases h1 : is2xx stD = true
  · by_cases h2 : is2xx stF = true
    · simp only [gh_commit_record, hD, hF, raise_for_status, h1, h2, if_true] at h
      exact absurd (congrArg Prod.snd h) (by simp)
    · simp only [gh_commit_record, hD, hF, raise_for_status, h1, h2, if_true, if_false] at h
      have he := congrArg Prod.snd h
      simp at he
      exact ⟨stF, .ghCommitDiff owner repo c.sha, he.symm⟩
  · simp only [gh_commit_record, hD, raise_for_status, h1, if_false] at h
    have he := congrArg Prod.snd h
    simp at he
    exact ⟨stD, .ghCommitDetail owner repo c.sha, he.symm⟩

theorem gl_commit_record_error_http (gl : GitlabApi) (project : Str) :
    ∀ (c : GlCommitSummary) (tr : List Request) (e : Err),
      gl_commit_record gl project c = (tr, .error e) →
      ∃ st ep, e = .httpError st ep := by
  intro c tr e h
  rcases hD : gl.commitDiff project c.id with ⟨st1, entries⟩
  by_cases h1 : is2xx st1 = true
  · simp only [gl_commit_record, hD, raise_for_status, h1, if_true] at h
    exact absurd (congrArg Prod.snd h) (by simp)
  · simp only [gl_commit_record, hD, raise_for_status, h1, if_false] at h
    have he := congrArg Prod.snd h
    simp at he
    exact ⟨st1, .glCommitDiff project c.id, he.symm⟩

/-! ### Claim theorems -/

/-- C1, counterexample: the claim fails as stated on a per-file diff text that
is a canonical unified diff whose first line is the `"---"` header.  The text
has exactly 3 lines starting with a plus (including the `"+++"` header) and 2
lines starting with a minus (including the `"---"` header), yet the formatter
produces additions = 2, deletions = 0, changes = 2 instead of the claimed
(2, 1, 3): the leading `"---"` line is not preceded by a newline, so it is
not counted as an occurrence of the substring consisting of a newline
followed by a minus. -/
theorem C1_counterexample :
    (pySplit '\n' c1cexEntry.diff).countP (startsWithChar '+') = 3
    ∧ (pySplit '\n' c1cexEntry.diff).countP (startsWithChar '-') = 2
    ∧ (format_gitlab_file_changes [c1cexEntry]).map
        (fun fc => (fc.additions, fc.deletions, fc.changes)) = [(2, 0, 2)]
    ∧ ¬ (format_gitlab_file_changes [c1cexEntry]).map
        (fun fc => (fc.additions, fc.deletions, fc.changes)) = [(2, 1, 3)] := by
  decide

/-- C1 (amended): for every GitLab per-file diff entry the formatter computes
additions as the number of occurrences of the substring `"\n+"` in the diff
text minus 1, deletions as the occurrences of `"\n-"` minus 1, and changes as
the sum of the two raw counts minus 2; and for every diff text whose FIRST
line does not itself start with a plus or a minus, with exactly 3 lines
starting with a plus and 2 lines starting with a minus, additions = 2,
deletions = 1 and changes = 3. -/
theorem C1_gitlab_count_rule :
    (∀ changes : List GitlabDiffEntry,
      (format_gitlab_file_changes changes).map (fun fc => fc.additions)
          = changes.map (fun e => (occurrences2 '\n' '+' e.diff : Int) - 1)
        ∧ (format_gitlab_file_changes changes).map (fun fc => fc.deletions)
          = changes.map (fun e => (occurrences2 '\n' '-' e.diff : Int) - 1)
        ∧ (format_gitlab_file_changes changes).map (fun fc => fc.changes)
          = changes.map (fun e =>
              ((occurrences2 '\n' '+' e.diff : Int) + (occurrences2 '\n' '-' e.diff : Int)) - 2))
    ∧ (∀ e : GitlabDiffEntry,
        ((pySplit '\n' e.diff).headD []).head? ≠ some '+' →
        ((pySplit '\n' e.diff).headD []).head? ≠ some '-' →
        (pySplit '\n' e.diff).countP (startsWithChar '+') = 3 →
        (pySplit '\n' e.diff).countP (startsWithChar '-') = 2 →
        (format_gitlab_file_changes [e]).map
          (fun fc => (fc.additions, fc.deletions, fc.changes)) = [(2, 1, 3)]) := by
  constructor
  · intro changes
    refine ⟨?_, ?_, ?_⟩ <;>
      simp [format_gitlab_file_changes, List.map_map, Function.comp,
        countSub2_eq_occurrences2]
  · intro e hp hm h3 h2
    obtain ⟨l, ls, hls⟩ := List.exists_cons_of_ne_nil (pySplit_ne_nil '\n' e.diff)
    have hl := pySplit_head_head? '\n' e.diff l ls hls
    rw [hls] at hp hm h3 h2
    simp only [List.headD_cons] at hp hm
    have ha : ¬ (e.diff.head? = some '+') := by
      intro hd
      apply hp
      rw [hl, if_neg (by rw [hd]; simp)]
      exact hd
    have hb : ¬ (e.diff.head? = some '-') := by
      intro hd
      apply hm
      rw [hl, if_neg (by rw [hd]; simp)]
      exact hd
    have hcp := countP_lines '\n' '+' (by decide) e.diff
    have hcm := countP_lines '\n' '-' (by decide) e.diff
    rw [hls, if_neg ha] at hcp
    rw [hls, if_neg hb] at hcm
    have hplus : countSub2 '\n' '+' e.diff = 3 := by omega
    have hminus : countSub2 '\n' '-' e.diff = 2 := by omega
    simp [format_gitlab_file_changes, hplus, hminus]

/-- C1, witness: a diff text starting with a hunk header, with 3 plus lines
and 2 minus lines, formats to additions = 2, deletions = 1, changes = 3. -/
theorem C1_witness :
    (format_gitlab_file_changes [c1witEntry]).map
      (fun fc => (fc.additions, fc.deletions, fc.changes)) = [(2, 1, 3)] :=
  C1_gitlab_count_rule.2 c1witEntry (by decide) (by decide) (by decide) (by decide)

/-- C2, counterexample: the GitLab variant of the formatter produces a
FileChange with negative additions, deletions and changes on an entry whose
diff text is empty, refuting non-negativity for every produced record. -/
theorem C2_counterexample :
    (format_gitlab_file_changes [c2cexEntry]).map
      (fun fc => (fc.additions, fc.deletions, fc.changes)) = [(-1, -1, -2)]
    ∧ ¬ (0 : Int) ≤ -1 := by
  decide

/-- C2 (amended): records of the GitHub variant have non-negative additions,
deletions and changes whenever the provider-supplied counters are
non-negative (missing counters default to 0); records of the GitLab variant
have non-negative fields whenever each per-file diff text contains at least
one occurrence of `"\n+"` and at least one occurrence of `"\n-"` (otherwise
the fields can be as low as -1, -1, -2). -/
theorem C2_file_change_nonneg :
    ∀ (files : List GithubFileEntry) (changes : List GitlabDiffEntry),
      (∀ f ∈ files, 0 ≤ f.additions.getD 0 ∧ 0 ≤ f.deletions.getD 0 ∧ 0 ≤ f.changes.getD 0) →
      (∀ f ∈ changes, 1 ≤ countSub2 '\n' '+' f.diff ∧ 1 ≤ countSub2 '\n' '-' f.diff) →
      (∀ fc ∈ format_file_changes files, 0 ≤ fc.additions ∧ 0 ≤ fc.deletions ∧ 0 ≤ fc.changes)
      ∧ (∀ fc ∈ format_gitlab_file_changes changes,
          0 ≤ fc.additions ∧ 0 ≤ fc.deletions ∧ 0 ≤ fc.changes) := by
  intro files changes hgh hgl
  constructor
  · intro fc hfc
    simp only [format_file_changes, List.mem_map] at hfc
    obtain ⟨f, hf, rfl⟩ := hfc
    exact hgh f hf
  · intro fc hfc
    simp only [format_gitlab_file_changes, List.mem_map] at hfc
    obtain ⟨f, hf, rfl⟩ := hfc
    obtain ⟨hp, hm⟩ := hgl f hf
    refine ⟨?_, ?_, ?_⟩ <;> simp <;> omega

/-- C2, witness: on a GitHub entry with counters 3/1/4 and a GitLab entry
whose diff contains both substrings, the first formatted records of both
variants have non-negative fields. -/
theorem C2_witness :
    (0 ≤ ((format_file_changes [c2witFile]).headD ⟨[], [], 0, 0, 0⟩).additions
      ∧ 0 ≤ ((format_file_changes [c2witFile]).headD ⟨[], [], 0, 0, 0⟩).deletions
      ∧ 0 ≤ ((format_file_changes [c2witFile]).headD ⟨[], [], 0, 0, 0⟩).changes)
    ∧ (0 ≤ ((format_gitlab_file_changes [c2witEntry]).headD ⟨[], [], 0, 0, 0⟩).additions
      ∧ 0 ≤ ((format_gitlab_file_changes [c2witEntry]).headD ⟨[], [], 0, 0, 0⟩).deletions
      ∧ 0 ≤ ((format_gitlab_file_changes [c2witEntry]).headD ⟨[], [], 0, 0, 0⟩).changes) := by
  have h := C2_file_change_nonneg [c2witFile] [c2witEntry] (by decide) (by decide)
  exact ⟨h.1 ((format_file_changes [c2witFile]).headD ⟨[], [], 0, 0, 0⟩) (by decide),
         h.2 ((format_gitlab_file_changes [c2witEntry]).headD ⟨[], [], 0, 0, 0⟩) (by decide)⟩

/-- C4: the GitLab change type is derived from the three boolean flags in
priority order new_file, then deleted_file, then renamed_file, then
"modified" — for every combination of the remaining flags, so the priority
order holds even when several flags are true simultaneously. -/
theorem C4_change_type_priority :
    ∀ (np df : Str) (d r : Bool),
      gitlab_change_type ⟨np, true, d, r, df⟩ = "added".toList
      ∧ gitlab_change_type ⟨np, false, true, r, df⟩ = "deleted".toList
      ∧ gitlab_change_type ⟨np, false, false, true, df⟩ = "renamed".toList
      ∧ gitlab_change_type ⟨np, false, false, false, df⟩ = "modified".toList := by
  intro np df d r
  exact ⟨rfl, rfl, rfl, rfl⟩

/-- C3, counterexample: provider detection does not restrict itself to the
host segment.  This URL has host segment `gitlab.com` (which contains
`gitlab.com` and not `github.com`), so the claimed host-based rule requires
the gitlab classification, yet `identify_provider` returns github because
`github.com` occurs later in the path. -/
theorem C3_counterexample :
    hostSegment c3cexUrl = "gitlab.com".toList
    ∧ pyIn "github.com".toList (hostSegment c3cexUrl) = false
    ∧ pyIn "gitlab.com".toList (hostSegment c3cexUrl) = true
    ∧ identify_provider c3cexUrl = .ok .github := by
  refine ⟨by decide, by decide, by decide, rfl⟩

/-- C3 (amended): the Provider Detector classifies by substring containment
on the ENTIRE URL string, testing `github.com` first: any string containing
`github.com` yields github, otherwise any string containing `gitlab.com`
yields gitlab, and any other string fails with the unsupported-provider
`ValueError`. -/
theorem C3_provider_detection :
    ∀ url : Str,
      (pyIn "github.com".toList url = true → identify_provider url = .ok .github)
      ∧ (pyIn "github.com".toList url = false → pyIn "gitlab.com".toList url = true →
          identify_provider url = .ok .gitlab)
      ∧ (pyIn "github.com".toList url = false → pyIn "gitlab.com".toList url = false →
          identify_provider url = .error (.valueError "Unsupported Git provider".toList)) := by
  intro url
  refine ⟨?_, ?_, ?_⟩
  · intro h1
    simp at h1
    simp [identify_provider, h1]
  · intro h1 h2
    simp at h1 h2
    simp [identify_provider, h1, h2]
  · intro h1 h2
    simp at h1 h2
    simp [identify_provider, h1, h2]

/-- C3, witness: a URL with neither marker fails; a URL with the GitHub
marker in its host is classified github. -/
theorem C3_witness :
    identify_provider "https://bitbucket.org/a/b".toList
      = .error (.valueError "Unsupported Git provider".toList)
    ∧ identify_provider "https://github.com/a/b".toList = .ok .github :=
  ⟨(C3_provider_detection _).2.2 (by decide) (by decide),
   (C3_provider_detection _).1 (by decide)⟩

/-- C10: detection tests substring containment on the whole URL string and
checks `github.com` before `gitlab.com`: every string containing
`github.com` anywhere yields github without raising (even if `gitlab.com`
also appears), and every string containing `gitlab.com` but not `github.com`
yields gitlab. -/
theorem C10_substring_detection :
    ∀ url : Str,
      (pyIn "github.com".toList url = true →
        identify_provider url = .ok .github)
      ∧ (pyIn "github.com".toList url = false → pyIn "gitlab.com".toList url = true →
        identify_provider url = .ok .gitlab) := by
  intro url
  refine ⟨?_, ?_⟩
  · intro h1
    simp at h1
    simp [identify_provider, h1]
  · intro h1 h2
    simp at h1 h2
    simp [identify_provider, h1, h2]

/-- C10, witness: a URL containing both markers is classified github; one
containing only the GitLab marker is classified gitlab. -/
theorem C10_witness :
    identify_provider "https://gitlab.com/a/github.com-mirror".toList = .ok .github
    ∧ identify_provider "https://gitlab.com/a/b".toList = .ok .gitlab :=
  ⟨(C10_substring_detection _).1 (by decide),
   (C10_substring_detection _).2 (by decide) (by decide)⟩

/-- C7: for the GitHub provider the URL parser strips slashes from the URL
path and splits on the slash character; when at least two segments result,
the first is the owner and the second the repository name; with fewer than
two segments it fails with an index error; the documented example URL parses
to owner `OwnerX` and repo `RepoY`. -/
theorem C7_github_url_parsing :
    (∀ url : Str,
      (∀ a b rest, pySplit '/' (stripChar '/' (pyPath url)) = a :: b :: rest →
          parse_repo_url url .github = .ok (.github a b))
      ∧ ((pySplit '/' (stripChar '/' (pyPath url))).length < 2 →
          parse_repo_url url .github = .error .indexError))
    ∧ parse_repo_url "https://github.com/OwnerX/RepoY".toList .github
        = .ok (.github "OwnerX".toList "RepoY".toList) := by
  constructor
  · intro url
    constructor
    · intro a b rest h
      simp only [parse_repo_url, h]
    · intro hlen
      rcases hs : pySplit '/' (stripChar '/' (pyPath url)) with _ | ⟨a, _ | ⟨b, t⟩⟩
      · simp only [parse_repo_url, hs]
      · simp only [parse_repo_url, hs]
      · rw [hs] at hlen
        simp at hlen
        omega
  · rfl

/-- C7, witness: the example URL satisfies the two-segment hypothesis and
parses to its owner and repository name; a URL whose path has a single
segment hits the index-error case. -/
theorem C7_witness :
    parse_repo_url "https://github.com/OwnerX/RepoY".toList .github
      = .ok (.github "OwnerX".toList "RepoY".toList)
    ∧ parse_repo_url "https://github.com/justowner".toList .github
      = .error .indexError :=
  ⟨(C7_github_url_parsing.1 _).1 "OwnerX".toList "RepoY".toList [] (by decide),
   (C7_github_url_parsing.1 _).2 (by decide)⟩

/-- C8: for the GitLab provider the URL parser strips slashes from the URL
path, strips one trailing `".git"` suffix when present, and then joins the
slash-separated segments with `"%2F"` — every slash is replaced by `"%2F"`
and no other character is altered; the documented example URL yields project
path `group%2Fsub%2Fproject`. -/
theorem C8_gitlab_url_parsing :
    (∀ url : Str,
      parse_repo_url url .gitlab =
        .ok (.gitlab (joinWith "%2F".toList (pySplit '/'
          (let path := stripChar '/' (pyPath url)
           if endsWith ".git".toList path then path.take (path.length - 4) else path)))))
    ∧ parse_repo_url "https://gitlab.com/group/sub/project.git".toList .gitlab
        = .ok (.gitlab "group%2Fsub%2Fproject".toList) := by
  constructor
  · intro url
    simp only [parse_repo_url, encodeSlash_eq_joinWith]
  · rfl

theorem gh_commit_record_ok_sha (gh : GithubApi) (owner repo : Str) :
    ∀ (c : GhCommitSummary) (y : Commit),
      (gh_commit_record gh owner repo c).2 = .ok y → y.sha = c.sha := by
  intro c y h
  rcases hD : gh.commitDetail owner repo c.sha with ⟨stD, details⟩
  rcases hF : gh.commitDiff owner repo c.sha with ⟨stF, diffText⟩
  by_cases h1 : is2xx stD = true
  · by_cases h2 : is2xx stF = true
    · simp only [gh_commit_record, hD, hF, raise_for_status, h1, h2, if_true] at h
      injection h with hy
      rw [← hy]
    · simp only [gh_commit_record, hD, hF, raise_for_status, h1, h2, if_true, if_false] at h
      exact absurd h (by simp)
  · simp only [gh_commit_record, hD, raise_for_status, h1, if_false] at h
    exact absurd h (by simp)

theorem gl_mr_record_ok_iid (gl : GitlabApi) (project : Str) :
    ∀ (mr : GlMrSummary) (y : MergeRequest),
      (gl_mr_record gl project mr).2 = .ok y → y.id = mr.iid := by
  intro mr y h
  rcases hC : gl.mergeRequestChanges project mr.iid with ⟨st1, details⟩
  rcases hF : gl.mergeRequestDiffs project mr.iid with ⟨st2, diffs⟩
  by_cases h1 : is2xx st1 = true
  · by_cases h2 : is2xx st2 = true
    · simp only [gl_mr_record, hC, hF, raise_for_status, h1, h2, if_true] at h
      injection h with hy
      rw [← hy]
    · simp only [gl_mr_record, hC, hF, raise_for_status, h1, h2, if_true, if_false] at h
      exact absurd h (by simp)
  · simp only [gl_mr_record, hC, raise_for_status, h1, if_false] at h
    exact absurd h (by simp)

theorem forall₂_map_eq {α β γ : Type} (f : α → γ) (g : β → γ) :
    ∀ (xs : List α) (ys : List β), List.Forall₂ (fun x y => g y = f x) xs ys →
      ys.map g = xs.map f := by
  intro xs ys h
  induction h with
  | nil => rfl
  | cons hxy _ ih => simp [ih, hxy]

/-- C5: the fetchers abort on the first non-2xx response.  If the commit-list
request answers non-2xx, the fetch returns the HttpRequestError carrying that
status and endpoint immediately, after exactly that one request (zero detail
or diff requests) and with no partial results; whenever a fetch succeeds,
every request it issued was answered 2xx (so a non-2xx answer at any stage
precludes success and no retry happens); and every failing fetch fails
precisely with an HttpRequestError. -/
theorem C5_http_error_aborts :
    ∀ (gh : GithubApi) (gl : GitlabApi) (owner repo project branch : Str) (n m : Int),
      (is2xx (gh.commitList owner repo branch n).1 = false →
        get_github_commits gh owner repo branch n =
          ([.ghCommitList owner repo branch n],
           .error (.httpError (gh.commitList owner repo branch n).1
             (.ghCommitList owner repo branch n))))
      ∧ (is2xx (gl.commitList project branch m).1 = false →
        get_gitlab_commits gl project branch m =
          ([.glCommitList project branch m],
           .error (.httpError (gl.commitList project branch m).1
             (.glCommitList project branch m))))
      ∧ (∀ cs, (get_github_commits gh owner repo branch n).2 = .ok cs →
          ∀ r ∈ (get_github_commits gh owner repo branch n).1,
            is2xx (request_status gh gl r) = true)
      ∧ (∀ cs, (get_gitlab_commits gl project branch m).2 = .ok cs →
          ∀ r ∈ (get_gitlab_commits gl project branch m).1,
            is2xx (request_status gh gl r) = true)
      ∧ (∀ e, (get_github_commits gh owner repo branch n).2 = .error e →
          ∃ st ep, e = .httpError st ep)
      ∧ (∀ e, (get_gitlab_commits gl project branch m).2 = .error e →
          ∃ st ep, e = .httpError st ep) := by
  intro gh gl owner repo project branch n m
  refine ⟨?_, ?_, ?_, ?_, ?_, ?_⟩
  · intro h
    rcases hcl : gh.commitList owner repo branch n with ⟨st, body⟩
    rw [hcl] at h
    simp only at h
    simp [get_github_commits, hcl, raise_for_status, h]
  · intro h
    rcases hcl : gl.commitList project branch m with ⟨st, body⟩
    rw [hcl] at h
    simp only at h
    simp [get_gitlab_commits, hcl, raise_for_status, h]
  · intro cs hok r hr
    rcases hcl : gh.commitList owner repo branch n with ⟨st, body⟩
    by_cases hst : is2xx st = true
    · rcases hfe : fetch_each (gh_commit_record gh owner repo) body with ⟨tr, res⟩
      simp only [get_github_commits, hcl, raise_for_status, hst, if_true, hfe] at hok hr
      simp only [List.mem_cons] at hr
      rcases hr with rfl | hmem
      · simp [request_status, hcl, hst]
      · have hrec := fetch_each_ok_trace (gh_commit_record gh owner repo)
          (fun rq => is2xx (request_status gh gl rq) = true)
          (gh_commit_record_trace_2xx gh gl owner repo) body cs
        rw [hfe] at hrec
        exact hrec hok r hmem
    · simp only [get_github_commits, hcl, raise_for_status, hst, if_false] at hok
      exact absurd hok (by simp)
  · intro mrs hok r hr
    rcases hcl : gl.commitList project branch m with ⟨st, body⟩
    by_cases hst : is2xx st = true
    · rcases hfe : fetch_each (gl_commit_record gl project) body with ⟨tr, res⟩
      simp only [get_gitlab_commits, hcl, raise_for_status, hst, if_true, hfe] at hok hr
      simp only [List.mem_cons] at hr
      rcases hr with rfl | hmem
      · simp [request_status, hcl, hst]
      · have hrec := fetch_each_ok_trace (gl_commit_record gl project)
          (fun rq => is2xx (request_status gh gl rq) = true)
          (gl_commit_record_trace_2xx gh gl project) body mrs
        rw [hfe] at hrec
        exact hrec hok r hmem
    · simp only [get_gitlab_commits, hcl, raise_for_status, hst, if_false] at hok
      exact absurd hok (by simp)
  · intro e herr
    rcases hcl : gh.commitList owner repo branch n with ⟨st, body⟩
    by_cases hst : is2xx st = true
    · rcases hfe : fetch_each (gh_commit_record gh owner repo) body with ⟨tr, res⟩
      simp only [get_github_commits, hcl, raise_for_status, hst, if_true, hfe] at herr
      have hshape := fetch_each_error_shape (gh_commit_record gh owner repo)
        (fun e2 => ∃ st2 ep, e2 = .httpError st2 ep)
        (gh_commit_record_error_http gh owner repo) body e
      rw [hfe] at hshape
      exact hshape herr
    · simp only [get_github_commits, hcl, raise_for_status, hst, if_false] at herr
      injection herr with he
      exact ⟨st, .ghCommitList owner repo branch n, he.symm⟩
  · intro e herr
    rcases hcl : gl.commitList project branch m with ⟨st, body⟩
    by_cases hst : is2xx st = true
    · rcases hfe : fetch_each (gl_commit_record gl project) body with ⟨tr, res⟩
      simp only [get_gitlab_commits, hcl, raise_for_status, hst, if_true, hfe] at herr
      have hshape := fetch_each_error_shape (gl_commit_record gl project)
        (fun e2 => ∃ st2 ep, e2 = .httpError st2 ep)
        (gl_commit_record_error_http gl project) body e
      rw [hfe] at hshape
      exact hshape herr
    · simp only [get_gitlab_commits, hcl, raise_for_status, hst, if_false] at herr
      injection herr with he
      exact ⟨st, .glCommitList project branch m, he.symm⟩

/-- C5, witness: concrete oracles whose list endpoints answer 404 make both
fetches fail immediately with exactly one issued request, and on an all-200
oracle the successful github fetch issued only 2xx-answered requests. -/
theorem C5_witness :
    get_github_commits gh404 "o".toList "r".toList "b".toList 5
      = ([.ghCommitList "o".toList "r".toList "b".toList 5],
         .error (.httpError 404 (.ghCommitList "o".toList "r".toList "b".toList 5)))
    ∧ get_gitlab_commits gl404 "p".toList "b".toList 5
      = ([.glCommitList "p".toList "b".toList 5],
         .error (.httpError 404 (.glCommitList "p".toList "b".toList 5)))
    ∧ is2xx (request_status gh200 gl200
        (.ghCommitList "o".toList "r".toList "b".toList 5)) = true :=
  ⟨(C5_http_error_aborts gh404 gl404 "o".toList "r".toList "p".toList "b".toList 5 5).1 rfl,
   (C5_http_error_aborts gh404 gl404 "o".toList "r".toList "p".toList "b".toList 5 5).2.1 rfl,
   (C5_http_error_aborts gh200 gl200 "o".toList "r".toList "p".toList "b".toList 5 5).2.2.1
     [] rfl (.ghCommitList "o".toList "r".toList "b".toList 5) (by decide)⟩

/-- C6, counterexample: the fetchers do not truncate — when the provider
ignores the per_page parameter and returns two entries for a requested
maximum of 1, the returned sequence has length 2 > 1. -/
theorem C6_counterexample :
    (get_github_commits ghOver "o".toList "r".toList "b".toList 1).2
      = .ok [gh_commit_of ghOver "o".toList "r".toList ⟨"s1".toList⟩,
             gh_commit_of ghOver "o".toList "r".toList ⟨"s2".toList⟩]
    ∧ ([gh_commit_of ghOver "o".toList "r".toList ⟨"s1".toList⟩,
        gh_commit_of ghOver "o".toList "r".toList ⟨"s2".toList⟩] : List Commit).length = 2
    ∧ ¬ ((2 : Int) ≤ 1) := by
  refine ⟨rfl, rfl, by decide⟩

/-- C6 (amended): when every issued request is answered 2xx, the fetchers
return exactly one record per response entry, in provider response order
(the output is the elementwise image of the provider's list response); on any
successful fetch the output length equals the number of response entries —
so it never exceeds the requested maximum when the provider returns at most
that many entries, but the code itself does not truncate — and the output
has no duplicates whenever the provider entries have distinct identifiers. -/
theorem C6_one_record_per_entry :
    ∀ (gh : GithubApi) (gl : GitlabApi) (owner repo project branch : Str) (n m : Int),
      (is2xx (gh.commitList owner repo branch n).1 = true →
       (∀ c ∈ (gh.commitList owner repo branch n).2,
          is2xx (gh.commitDetail owner repo c.sha).1 = true
          ∧ is2xx (gh.commitDiff owner repo c.sha).1 = true) →
        (get_github_commits gh owner repo branch n).2
          = .ok (((gh.commitList owner repo branch n).2).map (gh_commit_of gh owner repo)))
      ∧ (is2xx (gl.mergeRequestList project branch m).1 = true →
         (∀ mr ∈ (gl.mergeRequestList project branch m).2,
            is2xx (gl.mergeRequestChanges project mr.iid).1 = true
            ∧ is2xx (gl.mergeRequestDiffs project mr.iid).1 = true) →
          (get_gitlab_merge_requests gl project branch m).2
            = .ok (((gl.mergeRequestList project branch m).2).map (gl_mr_of gl project)))
      ∧ (∀ cs, (get_github_commits gh owner repo branch n).2 = .ok cs →
          cs.length = ((gh.commitList owner repo branch n).2).length)
      ∧ (∀ mrs, (get_gitlab_merge_requests gl project branch m).2 = .ok mrs →
          mrs.length = ((gl.mergeRequestList project branch m).2).length)
      ∧ (∀ cs, (get_github_commits gh owner repo branch n).2 = .ok cs →
          (((gh.commitList owner repo branch n).2).map (fun c => c.sha)).Nodup →
          cs.Nodup)
      ∧ (∀ mrs, (get_gitlab_merge_requests gl project branch m).2 = .ok mrs →
          (((gl.mergeRequestList project branch m).2).map (fun mr => mr.iid)).Nodup →
          mrs.Nodup) := by
  intro gh gl owner repo project branch n m
  refine ⟨?_, ?_, ?_, ?_, ?_, ?_⟩
  · intro h1 h2
    rcases hcl : gh.commitList owner repo branch n with ⟨st, body⟩
    rw [hcl] at h1 h2
    simp only at h1 h2
    have hmap := fetch_each_ok_map (gh_commit_record gh owner repo)
      (gh_commit_of gh owner repo)
      (fun c => [.ghCommitDetail owner repo c.sha, .ghCommitDiff owner repo c.sha]) body
      (fun c hc => gh_commit_record_ok gh owner repo c (h2 c hc).1 (h2 c hc).2)
    simp [get_github_commits, hcl, raise_for_status, h1, hmap]
  · intro h1 h2
    rcases hcl : gl.mergeRequestList project branch m with ⟨st, body⟩
    rw [hcl] at h1 h2
    simp only at h1 h2
    have hmap := fetch_each_ok_map (gl_mr_record gl project)
      (gl_mr_of gl project)
      (fun mr => [.glMergeRequestChanges project mr.iid, .glMergeRequestDiffs project mr.iid])
      body
      (fun mr hmr => gl_mr_record_ok gl project mr (h2 mr hmr).1 (h2 mr hmr).2)
    simp [get_gitlab_merge_requests, hcl, raise_for_status, h1, hmap]
  · intro cs hok
    rcases hcl : gh.commitList owner repo branch n with ⟨st, body⟩
    by_cases hst : is2xx st = true
    · rcases hfe : fetch_each (gh_commit_record gh owner repo) body with ⟨tr, res⟩
      simp only [get_github_commits, hcl, raise_for_status, hst, if_true, hfe] at hok
      have h₂ := fetch_each_ok_forall₂ (gh_commit_record gh owner repo) body cs
      rw [hfe] at h₂
      have hf2 := h₂ hok
      simp only
      exact hf2.length_eq.symm
    · simp only [get_github_commits, hcl, raise_for_status, hst, if_false] at hok
      exact absurd hok (by simp)
  · intro mrs hok
    rcases hcl : gl.mergeRequestList project branch m with ⟨st, body⟩
    by_cases hst : is2xx st = true
    · rcases hfe : fetch_each (gl_mr_record gl project) body with ⟨tr, res⟩
      simp only [get_gitlab_merge_requests, hcl, raise_for_status, hst, if_true, hfe] at hok
      have h₂ := fetch_each_ok_forall₂ (gl_mr_record gl project) body mrs
      rw [hfe] at h₂
      have hf2 := h₂ hok
      simp only
      exact hf2.length_eq.symm
    · simp only [get_gitlab_merge_requests, hcl, raise_for_status, hst, if_false] at hok
      exact absurd hok (by simp)
  · intro cs hok hnd
    rcases hcl : gh.commitList owner repo branch n with ⟨st, body⟩
    rw [hcl] at hnd
    simp only at hnd
    by_cases hst : is2xx st = true
    · rcases hfe : fetch_each (gh_commit_record gh owner repo) body with ⟨tr, res⟩
      simp only [get_github_commits, hcl, raise_for_status, hst, if_true, hfe] at hok
      have h₂ := fetch_each_ok_forall₂ (gh_commit_record gh owner repo) body cs
      rw [hfe] at h₂
      have hf2 := (h₂ hok).imp
        (fun x y hxy => gh_commit_record_ok_sha gh owner repo x y hxy)
      have hmapeq := forall₂_map_eq (fun c : GhCommitSummary => c.sha)
        (fun y : Commit => y.sha) body cs hf2
      rw [← hmapeq] at hnd
      exact hnd.of_map
    · simp only [get_github_commits, hcl, raise_for_status, hst, if_false] at hok
      exact absurd hok (by simp)
  · intro mrs hok hnd
    rcases hcl : gl.mergeRequestList project branch m with ⟨st, body⟩
    rw [hcl] at hnd
    simp only at hnd
    by_cases hst : is2xx st = true
    · rcases hfe : fetch_each (gl_mr_record gl project) body with ⟨tr, res⟩
      simp only [get_gitlab_merge_requests, hcl, raise_for_status, hst, if_true, hfe] at hok
      have h₂ := fetch_each_ok_forall₂ (gl_mr_record gl project) body mrs
      rw [hfe] at h₂
      have hf2 := (h₂ hok).imp
        (fun x y hxy => gl_mr_record_ok_iid gl project x y hxy)
      have hmapeq := forall₂_map_eq (fun mr : GlMrSummary => mr.iid)
        (fun y : MergeRequest => y.id) body mrs hf2
      rw [← hmapeq] at hnd
      exact hnd.of_map
    · simp only [get_gitlab_merge_requests, hcl, raise_for_status, hst, if_false] at hok
      exact absurd hok (by simp)

/-- C6, witness: on an all-200 github oracle returning two commit summaries
with a requested maximum of 5, the fetch returns exactly the two mapped
records; the empty gitlab merge-request response maps to the empty output. -/
theorem C6_witness :
    (get_github_commits ghOver "o".toList "r".toList "b".toList 5).2
      = .ok (([⟨"s1".toList⟩, ⟨"s2".toList⟩] : List GhCommitSummary).map
          (gh_commit_of ghOver "o".toList "r".toList))
    ∧ (get_gitlab_merge_requests gl200 "p".toList "b".toList 5).2
      = .ok (([] : List GlMrSummary).map (gl_mr_of gl200 "p".toList)) :=
  ⟨(C6_one_record_per_entry ghOver gl200 "o".toList "r".toList "p".toList "b".toList 5 5).1
      rfl (by decide),
   (C6_one_record_per_entry ghOver gl200 "o".toList "r".toList "p".toList "b".toList 5 5).2.1
      rfl (by decide)⟩

/-- C9 (amended): whenever the run fails at any stage — missing
configuration, unsupported provider, malformed URL, a non-2xx HTTP response,
or a failed generation call — the process terminates with that error and the
file system is left exactly as it was: no release-notes file is written by
the failing run (and a file from a previous run, if any, remains in place
untouched rather than being removed). -/
theorem C9_failure_leaves_fs :
    ∀ (env : Str → Option Str) (gh : GithubApi) (gl : GitlabApi)
      (gen : List Commit → List MergeRequest → Except Err Str)
      (fs : Str → Option Str) (e : Err),
      (main_block env gh gl gen fs).1 = .error e →
      (main_block env gh gl gen fs).2 = fs := by
  intro env gh gl gen fs e h
  cases hrun : main_run env gh gl gen fs with
  | ok fs2 =>
    simp only [main_block, hrun] at h
    exact absurd h (by simp)
  | error e2 =>
    simp [main_block, hrun]

/-- C9, counterexample: a run that fails at the configuration stage (no
environment variables set) terminates with the ValueError, but the
release-notes file written by a previous run is still present afterwards —
the failing run does not remove it, contrary to the claim. -/
theorem C9_counterexample :
    (main_block envEmpty gh200 gl200 gen0 fsOld).1
      = .error (.valueError
          "Missing required environment variables: REPO_URL, BRANCH_NAME".toList)
    ∧ (main_block envEmpty gh200 gl200 gen0 fsOld).2 "release_notes.md".toList
      = some "old notes".toList :=
  ⟨rfl, rfl⟩

/-- C9, witness: on the failing configuration-stage run, the whole file
system is unchanged. -/
theorem C9_witness :
    (main_block envEmpty gh200 gl200 gen0 fsOld).2 = fsOld :=
  C9_failure_leaves_fs envEmpty gh200 gl200 gen0 fsOld
    (.valueError "Missing required environment variables: REPO_URL, BRANCH_NAME".toList) rfl

end ReliSage
